import Mathlib

/-!
Verification of the vendor/category management core of the `travel` admin
application.

The application keeps two entity tables, `categories` and `vendors`, and a
junction table `vendor_categories` realising a many-to-many relation
(schema: `categories(id, name UNIQUE, created_at)`,
`vendors(id, name, city, created_at)`,
`vendor_categories(vendor_id, category_id)` with composite primary key and
cascading foreign keys to both parents, per the repository's README).

The repository functions of
`src/shared/adapters/supabase/repositories/vendors.ts` and
`categories.ts` are embedded as pure functions over an explicit store state
`DB`.  Store writes that can fail (inserts hitting unique or foreign-key
constraints) return `Except DbError`; each repository operation returns its
result together with the store state it leaves behind, so that partial
states produced by multi-step operations are observable.  The server-action
layer (`app/vendors/actions.ts`, `app/(protected)/categories/actions.ts`)
and its zod validation schemas are embedded on top.
-/

set_option linter.unusedVariables false

deriving instance DecidableEq for Except

namespace Travel

/-- Row of the `categories` table: `id`, `name` (UNIQUE), `created_at`. -/
structure CategoryRow where
  id : String
  name : String
  created_at : Nat
deriving Repr, DecidableEq

/-- Row of the `vendors` table: `id`, `name`, `city`, `created_at`. -/
structure VendorRow where
  id : String
  name : String
  city : String
  created_at : Nat
deriving Repr, DecidableEq

/-- Row of the `vendor_categories` junction table; composite key
`(vendor_id, category_id)`, both halves foreign keys. -/
structure JunctionRow where
  vendor_id : String
  category_id : String
deriving Repr, DecidableEq

/-- The relational store state: the three tables, plus counters used to
model store-generated ids (`gen_random_uuid()`) and timestamps (`now()`).
Table contents are lists in physical row order (insertion order), which is
the order an unordered select returns them in. -/
structure DB where
  categories : List CategoryRow
  vendors : List VendorRow
  vendor_categories : List JunctionRow
  nextId : Nat
  nextTime : Nat
deriving Repr, DecidableEq

/-- Store errors surfaced by failing statements: unique-constraint
violation (Postgres 23505), foreign-key violation (23503), and the
`.single()` postcondition failure (PGRST116: not exactly one row). -/
inductive DbError where
  | uniqueViolation
  | foreignKeyViolation
  | noSingleRow
deriving Repr, DecidableEq

/-- The id the store generates for the next inserted vendor row. -/
def freshVendorId (db : DB) : String := "v" ++ toString db.nextId

/-- The id the store generates for the next inserted category row. -/
def freshCategoryId (db : DB) : String := "c" ++ toString db.nextId

/-- Existence of a vendor row with the given id. -/
def vendorIdExists (db : DB) (id : String) : Bool :=
  db.vendors.any (fun v => v.id == id)

/-- Existence of a category row with the given id. -/
def categoryIdExists (db : DB) (id : String) : Bool :=
  db.categories.any (fun c => c.id == id)

/-- Store-level `INSERT INTO vendors (name, city)`: always succeeds (the
table has no unique constraint beyond the generated primary key), returning
the new row and the extended state. -/
def insertVendorRow (db : DB) (name city : String) : VendorRow × DB :=
  let row : VendorRow :=
    { id := freshVendorId db, name := name, city := city,
      created_at := db.nextTime }
  (row,
    { db with vendors := db.vendors ++ [row], nextId := db.nextId + 1,
              nextTime := db.nextTime + 1 })

/-- Store-level `INSERT INTO categories (name)`: fails with a unique
violation when the name already exists (the UNIQUE constraint on `name`). -/
def insertCategoryRow (db : DB) (name : String) :
    Except DbError (CategoryRow × DB) :=
  if db.categories.any (fun c => c.name == name) then
    .error .uniqueViolation
  else
    let row : CategoryRow :=
      { id := freshCategoryId db, name := name, created_at := db.nextTime }
    .ok (row,
      { db with categories := db.categories ++ [row],
                nextId := db.nextId + 1, nextTime := db.nextTime + 1 })

/-- Inserting one junction row: checks the two foreign keys and the
composite primary key, in statement order. -/
def insertJunctionRow (db : DB) (j : JunctionRow) : Except DbError DB :=
  if !vendorIdExists db j.vendor_id then .error .foreignKeyViolation
  else if !categoryIdExists db j.category_id then .error .foreignKeyViolation
  else if db.vendor_categories.contains j then .error .uniqueViolation
  else .ok { db with vendor_categories := db.vendor_categories ++ [j] }

/-- Bulk junction insert, one SQL statement inserting the rows in order.
The statement is atomic: callers that receive an error keep the state from
before the call. -/
def insertJunctionRows (db : DB) : List JunctionRow → Except DbError DB
  | [] => .ok db
  | j :: rest =>
    match insertJunctionRow db j with
    | .error e => .error e
    | .ok db2 => insertJunctionRows db2 rest

/-- Store-level `DELETE FROM vendor_categories WHERE vendor_id = vid`;
deleting zero rows is a success. -/
def deleteJunctionRowsOfVendor (db : DB) (vid : String) : DB :=
  { db with vendor_categories :=
      db.vendor_categories.filter (fun j => !(j.vendor_id == vid)) }

/-- Store-level `UPDATE vendors SET ... WHERE id = id`: applies the
supplied columns to every matching row; matching zero rows is a success. -/
def updateVendorColumns (db : DB) (id : String) (name city : Option String) :
    DB :=
  { db with vendors := db.vendors.map (fun v =>
      if v.id == id then
        { v with name := name.getD v.name, city := city.getD v.city }
      else v) }

/-- Store-level `DELETE FROM vendors WHERE id = vid`; the cascading foreign
key removes any junction rows referencing the vendor. -/
def deleteVendorRow (db : DB) (vid : String) : DB :=
  { db with vendors := db.vendors.filter (fun v => !(v.id == vid)),
            vendor_categories :=
              db.vendor_categories.filter (fun j => !(j.vendor_id == vid)) }

/-- Store-level `DELETE FROM categories WHERE id = cid`; the cascading
foreign key removes any junction rows referencing the category. -/
def deleteCategoryRow (db : DB) (cid : String) : DB :=
  { db with categories := db.categories.filter (fun c => !(c.id == cid)),
            vendor_categories :=
              db.vendor_categories.filter (fun j => !(j.category_id == cid)) }

/-- ASCII case folding, as applied by `ILIKE` to both pattern and value. -/
def lowerChar (ch : Char) : Char :=
  match ch with
  | 'A' => 'a' | 'B' => 'b' | 'C' => 'c' | 'D' => 'd' | 'E' => 'e'
  | 'F' => 'f' | 'G' => 'g' | 'H' => 'h' | 'I' => 'i' | 'J' => 'j'
  | 'K' => 'k' | 'L' => 'l' | 'M' => 'm' | 'N' => 'n' | 'O' => 'o'
  | 'P' => 'p' | 'Q' => 'q' | 'R' => 'r' | 'S' => 's' | 'T' => 't'
  | 'U' => 'u' | 'V' => 'v' | 'W' => 'w' | 'X' => 'x' | 'Y' => 'y'
  | 'Z' => 'z'
  | c => c

/-- Case folding over a character list. -/
def lowerChars (s : List Char) : List Char := s.map lowerChar

/-- Non-empty suffixes of a character list followed by the empty one: the
candidate continuation points a `%` wildcard can hand to the rest of the
pattern. -/
def charSuffixes : List Char → List (List Char)
  | [] => [[]]
  | c :: t => (c :: t) :: charSuffixes t

/-- SQL `LIKE` pattern matching over already case-folded characters:
`%` matches any sequence (the rest of the pattern must match some suffix),
`_` any single character, and a backslash escapes the following pattern
character (a trailing lone backslash matches nothing, as Postgres rejects
such patterns). -/
def likeMatch : List Char → List Char → Bool
  | [], cs => cs.isEmpty
  | p :: ps, cs =>
    if p = '%' then
      (charSuffixes cs).any (fun cs2 => likeMatch ps cs2)
    else if p = '_' then
      match cs with
      | [] => false
      | _ :: cs2 => likeMatch ps cs2
    else if p = '\\' then
      match ps with
      | [] => false
      | p2 :: ps2 =>
        match cs with
        | [] => false
        | ch :: cs2 => (p2 == ch) && likeMatch ps2 cs2
    else
      match cs with
      | [] => false
      | ch :: cs2 => (p == ch) && likeMatch ps cs2

/-- The pattern the source builds for the city filter: the literal
interpolation of the filter between two `%` wildcards. -/
def ilikePattern (pat : String) : List Char := '%' :: (pat.data ++ ['%'])

/-- `field ILIKE '%pat%'` as issued by `getVendors`: case-insensitive
`LIKE` matching of the interpolated pattern against the column value. -/
def ilikeTest (field pat : String) : Bool :=
  likeMatch (lowerChars (ilikePattern pat)) (lowerChars field.data)

/-- The hydrated vendor shape the repository returns: the vendor row
spread together with the `categories` projection of its junction rows. -/
structure Vendor where
  id : String
  name : String
  city : String
  created_at : Nat
  categories : List CategoryRow
deriving Repr, DecidableEq

/-- Assembling one returned vendor from the embedded select
`vendor_categories ( categories (*) )`: the vendor's junction rows in table
order, each resolved to its category row, dropped when the lookup is empty
(the source's `.filter(Boolean)`).  The source applies no ordering to this
nested projection. -/
def hydrateVendor (db : DB) (v : VendorRow) : Vendor :=
  { id := v.id, name := v.name, city := v.city, created_at := v.created_at,
    categories :=
      (db.vendor_categories.filter (fun j => j.vendor_id == v.id)).filterMap
        (fun j => db.categories.find? (fun c => c.id == j.category_id)) }

/-- Lexicographic order on character lists by code point, the total order
the store's `ORDER BY` uses on text in this model. -/
def charsLe : List Char → List Char → Bool
  | [], _ => true
  | _ :: _, [] => false
  | a :: as, b :: bs =>
    if a.toNat < b.toNat then true
    else if b.toNat < a.toNat then false
    else charsLe as bs

/-- The store's text collation order on names. -/
def nameLe (s t : String) : Bool := charsLe s.data t.data

/-- Insertion step of the store's `ORDER BY name` on vendor rows. -/
def insertRowByName (v : VendorRow) : List VendorRow → List VendorRow
  | [] => [v]
  | w :: ws =>
    if nameLe v.name w.name then v :: w :: ws else w :: insertRowByName v ws

/-- The store's `ORDER BY name` (ascending) on vendor rows. -/
def sortRowsByName : List VendorRow → List VendorRow
  | [] => []
  | v :: vs => insertRowByName v (sortRowsByName vs)

/-- Optional filters of `getVendors`. -/
structure VendorFilters where
  city : Option String := none
  categoryId : Option String := none
deriving Repr, DecidableEq

/-- JavaScript truthiness of the optional filter strings (`filters?.city`,
`filters?.categoryId`): absent and empty strings are both falsy, so an
empty-string filter is not applied. -/
def presentFilter : Option String → Option String
  | none => none
  | some s => if s == "" then none else some s

/-- The main vendors query of `getVendors`: select with the nested
category embed, `ORDER BY name`, optionally restricted to an id set (from
the category filter) and to cities matching `ILIKE '%city%'`. -/
def vendorMainQuery (db : DB) (idSet : Option (List String))
    (cityF : Option String) : List Vendor :=
  let rows := db.vendors.filter (fun v =>
    (match idSet with
     | some ids => ids.contains v.id
     | none => true)
    &&
    (match cityF with
     | some c => ilikeTest v.city c
     | none => true))
  (sortRowsByName rows).map (hydrateVendor db)

/-- `getVendors(client, filters?)`: when a category filter is active it
first resolves the vendor ids holding that category from the junction
table and returns the empty list at once if there are none; otherwise it
runs the main query restricted to those ids.  The second component counts
the store round-trips the call performed. -/
def getVendors (db : DB) (filters : Option VendorFilters) :
    List Vendor × Nat :=
  let cityF := presentFilter (filters.bind VendorFilters.city)
  match presentFilter (filters.bind VendorFilters.categoryId) with
  | some cid =>
    let vids := (db.vendor_categories.filter
        (fun j => j.category_id == cid)).map JunctionRow.vendor_id
    if vids.isEmpty then ([], 1)
    else (vendorMainQuery db (some vids) cityF, 2)
  | none => (vendorMainQuery db none cityF, 1)

/-- `getVendorById(client, id)`: select with the nested category embed,
`.eq("id", id).single()` — an error unless exactly one row matches. -/
def getVendorById (db : DB) (id : String) : Except DbError Vendor :=
  match db.vendors.filter (fun v => v.id == id) with
  | [v] => .ok (hydrateVendor db v)
  | _ => .error .noSingleRow

/-- Input of `createVendor` (`VendorCreateInput`). -/
structure VendorCreateInput where
  name : String
  city : String
  categoryIds : List String
deriving Repr, DecidableEq

/-- `createVendor(client, input)`: insert the vendor row; if `categoryIds`
is non-empty, bulk-insert one junction row per id; finally re-read through
`getVendorById`.  A throw after the vendor insert leaves the inserted row
in place (second component of the result). -/
def createVendor (db : DB) (input : VendorCreateInput) :
    Except DbError Vendor × DB :=
  let vrow := (insertVendorRow db input.name input.city).1
  let db1 := (insertVendorRow db input.name input.city).2
  if input.categoryIds.length > 0 then
    match insertJunctionRows db1 (input.categoryIds.map
        (fun cid => { vendor_id := vrow.id, category_id := cid })) with
    | .error e => (.error e, db1)
    | .ok db2 => (getVendorById db2 vrow.id, db2)
  else (getVendorById db1 vrow.id, db1)

/-- Input of `updateVendor` (`VendorUpdateInput`): each field is present or
absent; `categoryIds` distinguishes absent from present-and-empty. -/
structure VendorUpdateInput where
  name : Option String := none
  city : Option String := none
  categoryIds : Option (List String) := none
deriving Repr, DecidableEq

/-- `updateVendor(client, id, input)`: update the supplied columns when any
are present; when `categoryIds` is supplied, delete every junction row of
the vendor and bulk-insert one row per supplied id; finally re-read through
`getVendorById`.  A throw leaves the writes already performed in place. -/
def updateVendor (db : DB) (id : String) (input : VendorUpdateInput) :
    Except DbError Vendor × DB :=
  let db1 :=
    if input.name.isSome || input.city.isSome then
      updateVendorColumns db id input.name input.city
    else db
  match input.categoryIds with
  | none => (getVendorById db1 id, db1)
  | some cids =>
    let db2 := deleteJunctionRowsOfVendor db1 id
    if cids.length > 0 then
      match insertJunctionRows db2 (cids.map
          (fun cid => { vendor_id := id, category_id := cid })) with
      | .error e => (.error e, db2)
      | .ok db3 => (getVendorById db3 id, db3)
    else (getVendorById db2 id, db2)

/-- `deleteVendor(client, id)`: delete the vendor's junction rows, then the
vendor row; neither statement fails when no row matches. -/
def deleteVendor (db : DB) (id : String) : Except DbError Unit × DB :=
  let db1 := deleteJunctionRowsOfVendor db id
  (.ok (), deleteVendorRow db1 id)

/-- `deleteCategory(client, id)`: delete the category row (cascading to its
junction rows); deleting zero rows is a success. -/
def deleteCategory (db : DB) (id : String) : Except DbError Unit × DB :=
  (.ok (), deleteCategoryRow db id)

/-- `createCategory(client, { name })`: insert and return the new row; a
name collision propagates the store's unique-violation error. -/
def createCategory (db : DB) (name : String) :
    Except DbError CategoryRow × DB :=
  match insertCategoryRow db name with
  | .error e => (.error e, db)
  | .ok (row, db2) => (.ok row, db2)

/-- Error codes of `shared/lib/errors.ts`. -/
inductive ErrorCode where
  | VALIDATION_ERROR
  | DATABASE_ERROR
  | NOT_FOUND
  | UNAUTHORIZED
  | FORBIDDEN
  | CONFLICT
  | AUTH_ERROR
  | UNKNOWN
deriving Repr, DecidableEq

/-- `getErrorMessage`: the user-friendly message table of
`shared/lib/errors.ts`. -/
def getErrorMessage : ErrorCode → String
  | .VALIDATION_ERROR => "Invalid input data"
  | .DATABASE_ERROR => "Database operation failed"
  | .NOT_FOUND => "Resource not found"
  | .UNAUTHORIZED => "Authentication required"
  | .FORBIDDEN => "Access denied"
  | .CONFLICT => "Resource already exists"
  | .AUTH_ERROR => "Authentication failed"
  | .UNKNOWN => "An unexpected error occurred"

/-- `handleError(error, code)`: logs the thrown error and returns the
user-friendly message for the code it was handed. -/
def handleError (e : DbError) (code : ErrorCode) : String :=
  getErrorMessage code

/-- `ActionResult<T>` of `shared/lib/action-result.ts`. -/
inductive ActionResult (α : Type) where
  | ok (data : α)
  | err (msg : String) (code : ErrorCode)
deriving Repr, DecidableEq

/-- The zod `categorySchema` of the categories page: `name` between 1 and
100 characters; returns the first failing issue's message. -/
def categorySchemaCheck (name : String) : Option String :=
  if name.length < 1 then some "Name is required"
  else if name.length > 100 then some "Name is too long"
  else none

/-- The zod `vendorSchema` of `app/vendors/logic.ts`: `name` and `city`
between 1 and 100 characters, `categoryIds` a list of at least one string;
returns the first failing issue's message (zod reports issues in object
key order: name, city, categoryIds). -/
def vendorSchemaCheck (name city : String) (categoryIds : List String) :
    Option String :=
  if name.length < 1 then some "Name is required"
  else if name.length > 100 then some "Name is too long"
  else if city.length < 1 then some "City is required"
  else if city.length > 100 then some "City is too long"
  else if categoryIds.length < 1 then some "Select at least one category"
  else none

/-- `createCategoryAction`: validate, call `createCategory`, and map any
thrown store error to the generic `DATABASE_ERROR` result. -/
def createCategoryAction (db : DB) (name : String) :
    ActionResult CategoryRow × DB :=
  match categorySchemaCheck name with
  | some msg => (.err msg .VALIDATION_ERROR, db)
  | none =>
    match createCategory db name with
    | (.ok c, db2) => (.ok c, db2)
    | (.error e, db2) =>
      (.err (handleError e .DATABASE_ERROR) .DATABASE_ERROR, db2)

/-- `createVendorAction`: validate the form fields against `vendorSchema`,
call `createVendor`, and map any thrown store error to `DATABASE_ERROR`. -/
def createVendorAction (db : DB) (name city : String)
    (categoryIds : List String) : ActionResult Vendor × DB :=
  match vendorSchemaCheck name city categoryIds with
  | some msg => (.err msg .VALIDATION_ERROR, db)
  | none =>
    match createVendor db
        { name := name, city := city, categoryIds := categoryIds } with
    | (.ok v, db2) => (.ok v, db2)
    | (.error e, db2) =>
      (.err (handleError e .DATABASE_ERROR) .DATABASE_ERROR, db2)

/-- `updateVendorAction`: validate the form fields against `vendorSchema`
(so all three fields are always supplied to `updateVendor`), and map any
thrown store error to `DATABASE_ERROR`. -/
def updateVendorAction (db : DB) (id : String) (name city : String)
    (categoryIds : List String) : ActionResult Vendor × DB :=
  match vendorSchemaCheck name city categoryIds with
  | some msg => (.err msg .VALIDATION_ERROR, db)
  | none =>
    match updateVendor db id
        { name := some name, city := some city,
          categoryIds := some categoryIds } with
    | (.ok v, db2) => (.ok v, db2)
    | (.error e, db2) =>
      (.err (handleError e .DATABASE_ERROR) .DATABASE_ERROR, db2)

/-- Duplicate-freeness of a list, as a computable check. -/
def distinctList {α : Type} [DecidableEq α] : List α → Bool
  | [] => true
  | x :: xs => !xs.contains x && distinctList xs

/-- Well-formedness of a store state: primary keys are unique, the
category-name unique constraint holds, junction rows are unique pairs with
valid foreign keys, and the ids the store would generate next are fresh. -/
def DB.wf (db : DB) : Bool :=
  distinctList (db.vendors.map VendorRow.id) &&
  distinctList (db.categories.map CategoryRow.id) &&
  distinctList (db.categories.map CategoryRow.name) &&
  distinctList db.vendor_categories &&
  db.vendor_categories.all (fun j =>
    vendorIdExists db j.vendor_id && categoryIdExists db j.category_id) &&
  !(db.vendors.any (fun v => v.id == freshVendorId db)) &&
  !(db.categories.any (fun c => c.id == freshCategoryId db))

/-- Prefix test on character lists, recursing on the candidate prefix. -/
def isPrefixOfChars : List Char → List Char → Bool
  | [], _ => true
  | _ :: _, [] => false
  | a :: as, b :: bs => (a == b) && isPrefixOfChars as bs

/-- Case-insensitive substring containment, the city-filter semantics the
specification states (`needle` occurs contiguously inside `hay`, ignoring
ASCII case); written from the specification's words for comparison with
the `ILIKE` behaviour the source actually requests. -/
def containsSub (hay needle : List Char) : Bool :=
  isPrefixOfChars needle hay ||
    match hay with
    | [] => false
    | _ :: t => containsSub t needle

/-- Case-insensitive substring match of a filter against a city value, the
specification's reading of the city filter. -/
def citySubstringMatch (city pat : String) : Bool :=
  containsSub (lowerChars city.data) (lowerChars pat.data)

/-- Absence of SQL `LIKE` metacharacters in a filter string. -/
def noMeta (s : String) : Bool :=
  s.data.all (fun ch => !(ch == '%') && !(ch == '_') && !(ch == '\\'))

/-- The vendor row `createVendor` inserts for a given input and store. -/
def createdRow (db : DB) (input : VendorCreateInput) : VendorRow :=
  { id := freshVendorId db, name := input.name, city := input.city,
    created_at := db.nextTime }

/-- The store state a successful `createVendor` leaves behind: the new
vendor row appended, one junction row per supplied category id. -/
def createdState (db : DB) (input : VendorCreateInput) : DB :=
  { db with
    vendors := db.vendors ++ [createdRow db input],
    vendor_categories := (db.vendor_categories ++
      input.categoryIds.map (fun cid =>
        { vendor_id := freshVendorId db, category_id := cid })),
    nextId := db.nextId + 1, nextTime := db.nextTime + 1 }

/-- The store state a successful category replacement
(`updateVendor` with `categoryIds` supplied) leaves behind: every junction
row of the vendor removed, one junction row per supplied id appended. -/
def replacedState (db : DB) (id : String) (S : List String) : DB :=
  { db with vendor_categories :=
      (db.vendor_categories.filter (fun j => !(j.vendor_id == id)) ++
        S.map (fun cid => { vendor_id := id, category_id := cid })) }

/-- A small concrete store used to instantiate the theorems: two
categories, one vendor in Paris holding the second category. -/
def dbA : DB :=
  { categories := [{ id := "c1", name := "Tour Operator", created_at := 0 },
                   { id := "c2", name := "Luxury Hotel", created_at := 1 }],
    vendors := [{ id := "v1", name := "Ritz", city := "Paris",
                  created_at := 2 }],
    vendor_categories := [{ vendor_id := "v1", category_id := "c2" }],
    nextId := 0,
    nextTime := 3 }

/-- A concrete store whose vendor holds two categories whose junction-row
order disagrees with the alphabetical order of the category names. -/
def dbB : DB :=
  { categories := [{ id := "c1", name := "Zeta", created_at := 0 },
                   { id := "c2", name := "Alpha", created_at := 1 }],
    vendors := [{ id := "v1", name := "Ritz", city := "Paris",
                  created_at := 2 }],
    vendor_categories := [{ vendor_id := "v1", category_id := "c1" },
                          { vendor_id := "v1", category_id := "c2" }],
    nextId := 0,
    nextTime := 3 }

theorem contains_true_iff {α : Type} [DecidableEq α] (l : List α) (a : α) :
    l.contains a = true ↔ a ∈ l := by
  simp

theorem distinctList_cons {α : Type} [DecidableEq α] (x : α) (xs : List α) :
    distinctList (x :: xs) = true ↔ x ∉ xs ∧ distinctList xs = true := by
  simp [distinctList]

theorem find?_id_eq_some_of_distinct (cats : List CategoryRow)
    (c : CategoryRow)
    (hd : distinctList (cats.map CategoryRow.id) = true) (hc : c ∈ cats) :
    cats.find? (fun x => x.id == c.id) = some c := by
  induction cats with
  | nil => cases hc
  | cons h t ih =>
    rw [List.map_cons, distinctList_cons] at hd
    rcases List.mem_cons.mp hc with hc1 | hc1
    · subst hc1
      simp [List.find?_cons]
    · have hne : (h.id == c.id) = false := by
        rw [beq_eq_false_iff_ne]
        intro he
        apply hd.1
        rw [he]
        exact List.mem_map_of_mem CategoryRow.id hc1
      simp [List.find?_cons, hne, ih hd.2 hc1]

theorem filter_vendorId_singleton (l : List VendorRow) (r : VendorRow)
    (hd : distinctList (l.map VendorRow.id) = true) (hr : r ∈ l) :
    l.filter (fun v => v.id == r.id) = [r] := by
  induction l with
  | nil => cases hr
  | cons h t ih =>
    rw [List.map_cons, distinctList_cons] at hd
    rcases List.mem_cons.mp hr with hr1 | hr1
    · subst hr1
      have ht : t.filter (fun v => v.id == r.id) = [] := by
        rw [List.filter_eq_nil_iff]
        intro v hv hvr
        apply hd.1
        rw [← beq_iff_eq.mp hvr]
        exact List.mem_map_of_mem VendorRow.id hv
      simp [List.filter_cons, ht]
    · have hne : (h.id == r.id) = false := by
        rw [beq_eq_false_iff_ne]
        intro he
        apply hd.1
        rw [he]
        exact List.mem_map_of_mem VendorRow.id hr1
      simp [List.filter_cons, hne, ih hd.2 hr1]

theorem getVendorById_eq_ok (db : DB) (r : VendorRow)
    (hd : distinctList (db.vendors.map VendorRow.id) = true)
    (hr : r ∈ db.vendors) :
    getVendorById db r.id = .ok (hydrateVendor db r) := by
  unfold getVendorById
  rw [filter_vendorId_singleton db.vendors r hd hr]

theorem mem_hydrate_categories (db : DB) (v : VendorRow) (c : CategoryRow)
    (hdc : distinctList (db.categories.map CategoryRow.id) = true) :
    c ∈ (hydrateVendor db v).categories ↔
      (c ∈ db.categories ∧ ∃ j ∈ db.vendor_categories,
        j.vendor_id = v.id ∧ j.category_id = c.id) := by
  unfold hydrateVendor
  simp only [List.mem_filterMap, List.mem_filter]
  constructor
  · rintro ⟨j, ⟨hj, hjv⟩, hfind⟩
    refine ⟨List.mem_of_find?_eq_some hfind, j, hj, beq_iff_eq.mp hjv, ?_⟩
    have := List.find?_some hfind
    exact (beq_iff_eq.mp this).symm
  · rintro ⟨hc, j, hj, hjv, hjc⟩
    refine ⟨j, ⟨hj, beq_iff_eq.mpr hjv⟩, ?_⟩
    rw [hjc]
    exact find?_id_eq_some_of_distinct db.categories c hdc hc

theorem insertJunctionRows_ok (cids : List String) (db : DB) (vid : String)
    (hv : vendorIdExists db vid = true)
    (hc : ∀ cid ∈ cids, categoryIdExists db cid = true)
    (hfresh : ∀ cid ∈ cids,
      ({ vendor_id := vid, category_id := cid } : JunctionRow) ∉
        db.vendor_categories)
    (hd : distinctList cids = true) :
    insertJunctionRows db
        (cids.map (fun cid => { vendor_id := vid, category_id := cid })) =
      .ok { db with vendor_categories := (db.vendor_categories ++
        cids.map (fun cid => { vendor_id := vid, category_id := cid })) } := by
  induction cids generalizing db with
  | nil => simp [insertJunctionRows]
  | cons c rest ih =>
    rw [distinctList_cons] at hd
    have hrow : insertJunctionRow db
        ({ vendor_id := vid, category_id := c } : JunctionRow) =
        .ok { db with vendor_categories := db.vendor_categories ++
          [{ vendor_id := vid, category_id := c }] } := by
      unfold insertJunctionRow
      rw [if_neg, if_neg, if_neg]
      · simp only [contains_true_iff, Bool.not_eq_true]
        exact hfresh c (by simp)
      · simp [hc c (by simp)]
      · simp [hv]
    rw [List.map_cons]
    have ih2 := ih
      { db with vendor_categories := db.vendor_categories ++
        [{ vendor_id := vid, category_id := c }] }
      (by simpa [vendorIdExists] using hv)
      (fun cid hcid => by
        simpa [categoryIdExists] using hc cid (by simp [hcid]))
      (fun cid hcid => by
        simp only [List.mem_append, List.mem_singleton]
        rintro (hmem | hmem)
        · exact hfresh cid (by simp [hcid]) hmem
        · apply hd.1
          have hcc : cid = c := by
            have := congrArg JunctionRow.category_id hmem
            simpa using this
          rwa [← hcc])
      hd.2
    simp only [insertJunctionRows, hrow, ih2]
    simp [List.append_assoc]

theorem vendorIdExists_iff (db : DB) (x : String) :
    vendorIdExists db x = true ↔ ∃ v ∈ db.vendors, v.id = x := by
  simp [vendorIdExists]

theorem categoryIdExists_iff (db : DB) (x : String) :
    categoryIdExists db x = true ↔ ∃ c ∈ db.categories, c.id = x := by
  simp [categoryIdExists]

theorem wf_parts (db : DB) (h : db.wf = true) :
    distinctList (db.vendors.map VendorRow.id) = true ∧
    distinctList (db.categories.map CategoryRow.id) = true ∧
    distinctList (db.categories.map CategoryRow.name) = true ∧
    distinctList db.vendor_categories = true ∧
    (∀ j ∈ db.vendor_categories, vendorIdExists db j.vendor_id = true ∧
      categoryIdExists db j.category_id = true) ∧
    (∀ v ∈ db.vendors, v.id ≠ freshVendorId db) ∧
    (∀ c ∈ db.categories, c.id ≠ freshCategoryId db) := by
  unfold DB.wf at h
  simp only [Bool.and_eq_true, Bool.not_eq_true', List.any_eq_false,
    List.all_eq_true] at h
  obtain ⟨⟨⟨⟨⟨⟨h1, h2⟩, h3⟩, h4⟩, h5⟩, h6⟩, h7⟩ := h
  refine ⟨h1, h2, h3, h4, h5, ?_, ?_⟩
  · intro v hv
    have := h6 v hv
    simpa using this
  · intro c hc
    have := h7 c hc
    simpa using this

theorem distinctList_append_one {α : Type} [DecidableEq α] (l : List α)
    (a : α) (hd : distinctList l = true) (ha : a ∉ l) :
    distinctList (l ++ [a]) = true := by
  induction l with
  | nil => simp [distinctList]
  | cons x xs ih =>
    rw [distinctList_cons] at hd
    rw [List.cons_append, distinctList_cons]
    refine ⟨?_, ih hd.2 (fun hm => ha (List.mem_cons_of_mem x hm))⟩
    intro hm
    rcases List.mem_append.mp hm with hm | hm
    · exact hd.1 hm
    · exact ha (by simp [List.mem_singleton.mp hm])

theorem junction_vendor_ne_fresh (db : DB) (hwf : db.wf = true) :
    ∀ j ∈ db.vendor_categories, j.vendor_id ≠ freshVendorId db := by
  intro j hj he
  obtain ⟨-, -, -, -, h5, h6, -⟩ := wf_parts db hwf
  obtain ⟨v, hv, hvid⟩ := (vendorIdExists_iff db j.vendor_id).mp (h5 j hj).1
  exact h6 v hv (hvid.trans he)

theorem fresh_not_mem_vendorIds (db : DB) (hwf : db.wf = true) :
    freshVendorId db ∉ db.vendors.map VendorRow.id := by
  obtain ⟨-, -, -, -, -, h6, -⟩ := wf_parts db hwf
  intro hm
  obtain ⟨v, hv, hvid⟩ := List.mem_map.mp hm
  exact h6 v hv hvid

theorem createVendor_eq_main (db : DB) (input : VendorCreateInput)
    (hwf : db.wf = true)
    (hdup : distinctList input.categoryIds = true)
    (hex : ∀ cid ∈ input.categoryIds, categoryIdExists db cid = true) :
    createVendor db input =
      (getVendorById (createdState db input) (freshVendorId db),
        createdState db input) := by
  by_cases hnil : input.categoryIds = []
  · simp [createVendor, insertVendorRow, createdState, createdRow, hnil]
  · have hlen : input.categoryIds.length > 0 :=
      List.length_pos.mpr hnil
    have hrows := insertJunctionRows_ok input.categoryIds
      { db with
        vendors := db.vendors ++
          [{ id := freshVendorId db, name := input.name,
             city := input.city, created_at := db.nextTime }],
        nextId := db.nextId + 1, nextTime := db.nextTime + 1 }
      (freshVendorId db)
      (by simp [vendorIdExists])
      (fun cid hcid => by
        simpa [categoryIdExists] using hex cid hcid)
      (fun cid hcid hmem => by
        exact junction_vendor_ne_fresh db hwf _ (by simpa using hmem) rfl)
      hdup
    simp only [createVendor, insertVendorRow, hlen, if_pos]
    simp only at hrows
    rw [hrows]
    simp [createdState, createdRow]

/-- C1 (amended): for every well-formed store and every input whose
`categoryIds` are pairwise distinct and each name an existing category,
`getVendorById` of the id of the vendor returned by `createVendor` returns
a vendor whose `name` and `city` equal the input and whose `categories`,
viewed as a set, equal the set of categories identified by `categoryIds`
(a membership characterisation independent of the order of `categoryIds`).
The distinctness hypothesis is forced by the counterexample: a duplicated
category id makes the junction bulk insert violate the composite primary
key, so `createVendor` throws instead of returning the vendor. -/
theorem createVendor_roundtrip (db : DB) (input : VendorCreateInput)
    (hwf : db.wf = true)
    (hdup : distinctList input.categoryIds = true)
    (hex : ∀ cid ∈ input.categoryIds, categoryIdExists db cid = true) :
    ∃ v db2, createVendor db input = (.ok v, db2) ∧
      v.name = input.name ∧ v.city = input.city ∧
      ∀ c : CategoryRow, c ∈ v.categories ↔
        (c ∈ db.categories ∧ c.id ∈ input.categoryIds) := by
  obtain ⟨hvd, hcd, -, -, -, -, -⟩ := wf_parts db hwf
  have hmain := createVendor_eq_main db input hwf hdup hex
  have hdF : distinctList
      ((createdState db input).vendors.map VendorRow.id) = true := by
    simp only [createdState, List.map_append, List.map_cons, List.map_nil]
    exact distinctList_append_one _ _ hvd (fresh_not_mem_vendorIds db hwf)
  have hmem : createdRow db input ∈ (createdState db input).vendors := by
    simp [createdState]
  have hgot := getVendorById_eq_ok (createdState db input)
    (createdRow db input) hdF hmem
  have hgot2 : getVendorById (createdState db input) (freshVendorId db) =
      .ok (hydrateVendor (createdState db input) (createdRow db input)) := by
    simpa [createdRow] using hgot
  refine ⟨hydrateVendor (createdState db input) (createdRow db input),
    createdState db input, by rw [hmain, hgot2], rfl, rfl, ?_⟩
  intro c
  have hcdF : distinctList
      ((createdState db input).categories.map CategoryRow.id) = true := by
    simpa [createdState] using hcd
  rw [mem_hydrate_categories _ _ c hcdF]
  simp only [createdState, createdRow]
  constructor
  · rintro ⟨hc1, j, hj, hjv, hjc⟩
    refine ⟨hc1, ?_⟩
    rcases List.mem_append.mp hj with hjold | hjnew
    · exact absurd hjv (junction_vendor_ne_fresh db hwf j hjold)
    · obtain ⟨cid, hcid, hje⟩ := List.mem_map.mp hjnew
      rw [← hjc, ← hje]
      simpa using hcid
  · rintro ⟨hc1, hcid⟩
    refine ⟨hc1,
      { vendor_id := freshVendorId db, category_id := c.id }, ?_, rfl, rfl⟩
    exact List.mem_append_right _ (List.mem_map.mpr ⟨c.id, hcid, rfl⟩)

/-- C1 witness: the round-trip theorem applied to the concrete store
`dbA` and the input `{Tokyo Adventures, Tokyo, [c1, c2]}`. -/
theorem createVendor_roundtrip_witness :
    dbA.wf = true ∧
    distinctList ["c1", "c2"] = true ∧
    (∀ cid ∈ ["c1", "c2"], categoryIdExists dbA cid = true) ∧
    ∃ v db2, createVendor dbA
        { name := "Tokyo Adventures", city := "Tokyo",
          categoryIds := ["c1", "c2"] } = (.ok v, db2) ∧
      v.name = "Tokyo Adventures" ∧ v.city = "Tokyo" ∧
      ∀ c : CategoryRow, c ∈ v.categories ↔
        (c ∈ dbA.categories ∧ c.id ∈ ["c1", "c2"]) :=
  ⟨by decide, by decide, by decide,
    createVendor_roundtrip dbA
      { name := "Tokyo Adventures", city := "Tokyo",
        categoryIds := ["c1", "c2"] }
      (by decide) (by decide) (by decide)⟩

/-- C1 counterexample: with the duplicate (but existing) category ids
`[c1, c1]` — accepted by the input-validation schema — the junction bulk
insert violates the composite primary key, so `createVendor` fails with
the store's unique-violation error instead of returning a vendor: the
round trip does not hold for every valid input with existing category
ids. -/
theorem createVendor_roundtrip_counterexample :
    (∀ cid ∈ ["c1", "c1"], categoryIdExists dbA cid = true) ∧
    vendorSchemaCheck "Tokyo Adventures" "Tokyo" ["c1", "c1"] = none ∧
    (createVendor dbA
      { name := "Tokyo Adventures", city := "Tokyo",
        categoryIds := ["c1", "c1"] }).1 = .error .uniqueViolation := by
  decide

theorem updateVendor_eq_main (db : DB) (id : String) (S : List String)
    (hv : vendorIdExists db id = true)
    (hdup : distinctList S = true)
    (hex : ∀ cid ∈ S, categoryIdExists db cid = true) :
    updateVendor db id
        { name := none, city := none, categoryIds := some S } =
      (getVendorById (replacedState db id S) id, replacedState db id S) := by
  by_cases hnil : S = []
  · simp [updateVendor, deleteJunctionRowsOfVendor, replacedState, hnil]
  · have hlen : S.length > 0 := List.length_pos.mpr hnil
    have hrows := insertJunctionRows_ok S
      { db with vendor_categories :=
          db.vendor_categories.filter (fun j => !(j.vendor_id == id)) }
      id
      (by simpa [vendorIdExists] using hv)
      (fun cid hcid => by
        simpa [categoryIdExists] using hex cid hcid)
      (fun cid hcid hmem => by
        simp only at hmem
        have hfb := List.of_mem_filter hmem
        simp at hfb)
      hdup
    simp only [updateVendor, deleteJunctionRowsOfVendor, hlen, if_pos,
      Option.isSome_none, Bool.or_self, Bool.false_eq_true, if_false]
    simp only at hrows
    rw [hrows]
    simp [replacedState]

/-- C2 (amended): for every well-formed store, every existing vendor id
and every supplied sequence S of pairwise-distinct existing category ids,
`updateVendor(id, {categoryIds: S})` leaves the vendor associated with
exactly the categories in S: the junction rows of the vendor afterwards
are exactly one row per element of S, junction rows of other vendors are
untouched, and the returned vendor's `categories` set is the set of
categories identified by S.  The existence and distinctness hypotheses on
S are forced by the counterexample: any other S makes the bulk insert
fail after the delete already ran. -/
theorem updateVendor_replaces_categories (db : DB) (r : VendorRow)
    (id : String) (S : List String)
    (hwf : db.wf = true) (hr : r ∈ db.vendors) (hid : r.id = id)
    (hdup : distinctList S = true)
    (hex : ∀ cid ∈ S, categoryIdExists db cid = true) :
    ∃ v db2, updateVendor db id
        { name := none, city := none, categoryIds := some S } =
      (.ok v, db2) ∧
      db2.vendor_categories.filter (fun j => j.vendor_id == id) =
        S.map (fun cid => { vendor_id := id, category_id := cid }) ∧
      (∀ j ∈ db.vendor_categories, j.vendor_id ≠ id →
        j ∈ db2.vendor_categories) ∧
      (∀ c : CategoryRow, c ∈ v.categories ↔
        (c ∈ db.categories ∧ c.id ∈ S)) := by
  subst hid
  obtain ⟨hvd, hcd, -, -, -, -, -⟩ := wf_parts db hwf
  have hvex : vendorIdExists db r.id = true :=
    (vendorIdExists_iff db r.id).mpr ⟨r, hr, rfl⟩
  have hmain := updateVendor_eq_main db r.id S hvex hdup hex
  have hdR : distinctList
      ((replacedState db r.id S).vendors.map VendorRow.id) = true := by
    simpa [replacedState] using hvd
  have hmem : r ∈ (replacedState db r.id S).vendors := by
    simpa [replacedState] using hr
  have hgot := getVendorById_eq_ok (replacedState db r.id S) r hdR hmem
  refine ⟨hydrateVendor (replacedState db r.id S) r,
    replacedState db r.id S, by rw [hmain, hgot], ?_, ?_, ?_⟩
  · simp only [replacedState]
    rw [List.filter_append]
    have h1 : (db.vendor_categories.filter
        (fun j => !(j.vendor_id == r.id))).filter
          (fun j => j.vendor_id == r.id) = [] := by
      rw [List.filter_eq_nil_iff]
      intro j hj hb
      have hne := List.of_mem_filter hj
      simp at hne
      exact hne (beq_iff_eq.mp hb)
    have h2 : (S.map (fun cid =>
        ({ vendor_id := r.id, category_id := cid } : JunctionRow))).filter
          (fun j => j.vendor_id == r.id) =
        S.map (fun cid =>
          ({ vendor_id := r.id, category_id := cid } : JunctionRow)) := by
      rw [List.filter_eq_self]
      intro j hj
      obtain ⟨cid, hcid, hje⟩ := List.mem_map.mp hj
      rw [← hje]
      simp
    rw [h1, h2, List.nil_append]
  · intro j hj hne
    simp only [replacedState]
    apply List.mem_append_left
    exact List.mem_filter.mpr ⟨hj, by simpa using hne⟩
  · intro c
    rw [mem_hydrate_categories _ _ c (by simpa [replacedState] using hcd)]
    simp only [replacedState]
    constructor
    · rintro ⟨hc1, j, hj, hjv, hjc⟩
      refine ⟨hc1, ?_⟩
      rcases List.mem_append.mp hj with hjold | hjnew
      · have hne := List.of_mem_filter hjold
        simp at hne
        exact absurd hjv hne
      · obtain ⟨cid, hcid, hje⟩ := List.mem_map.mp hjnew
        rw [← hjc, ← hje]
        simpa using hcid
    · rintro ⟨hc1, hcid⟩
      exact ⟨hc1, { vendor_id := r.id, category_id := c.id },
        List.mem_append_right _ (List.mem_map.mpr ⟨c.id, hcid, rfl⟩),
        rfl, rfl⟩

/-- C2 witness: the replacement theorem applied to the concrete store
`dbA` (vendor v1 holding category c2) with the replacement set [c1]. -/
theorem updateVendor_replaces_categories_witness :
    dbA.wf = true ∧
    ∃ v db2, updateVendor dbA "v1"
        { name := none, city := none, categoryIds := some ["c1"] } =
      (.ok v, db2) ∧
      db2.vendor_categories.filter (fun j => j.vendor_id == "v1") =
        ["c1"].map (fun cid => { vendor_id := "v1", category_id := cid }) ∧
      (∀ j ∈ dbA.vendor_categories, j.vendor_id ≠ "v1" →
        j ∈ db2.vendor_categories) ∧
      (∀ c : CategoryRow, c ∈ v.categories ↔
        (c ∈ dbA.categories ∧ c.id ∈ ["c1"])) :=
  ⟨by decide, updateVendor_replaces_categories dbA
    { id := "v1", name := "Ritz", city := "Paris", created_at := 2 }
    "v1" ["c1"] (by decide) (by decide) rfl (by decide) (by decide)⟩

/-- C2 counterexample: for the existing vendor v1 (associated with c2) and
the supplied sequence S = [zzz] naming no existing category, the delete of
the existing junction rows runs but the insert fails the foreign key, so
the operation errors and the vendor ends associated with no category at
all — not with exactly the categories in S.  The claim is false for
arbitrary supplied sequences S. -/
theorem updateVendor_replaces_categories_counterexample :
    (updateVendor dbA "v1"
      { name := none, city := none, categoryIds := some ["zzz"] }).1 =
        .error .foreignKeyViolation ∧
    ((updateVendor dbA "v1"
      { name := none, city := none,
        categoryIds := some ["zzz"] }).2).vendor_categories = [] := by
  decide

theorem filter_updated_rows (l : List VendorRow) (rid : String)
    (n c : Option String) :
    (l.map (fun v => if v.id == rid then
      { v with name := n.getD v.name, city := c.getD v.city }
    else v)).filter (fun v => v.id == rid) =
    (l.filter (fun v => v.id == rid)).map (fun v =>
      { v with name := n.getD v.name, city := c.getD v.city }) := by
  induction l with
  | nil => rfl
  | cons x xs ih =>
    by_cases h : (x.id == rid) = true
    · have he : x.id = rid := beq_iff_eq.mp h
      simp only [List.filter_cons, List.map_cons, he]
      simp only [if_pos rfl, beq_self_eq_true, if_pos]
      rw [List.map_cons, List.cons.injEq]
      exact ⟨by rw [← he], ih⟩
    · have hne : ¬ x.id = rid := by simpa using h
      simp only [List.filter_cons, List.map_cons]
      simp only [hne, if_false, beq_iff_eq]
      simpa using ih

theorem getVendorById_updateVendorColumns (db : DB) (r : VendorRow)
    (n c : Option String)
    (hvd : distinctList (db.vendors.map VendorRow.id) = true)
    (hr : r ∈ db.vendors) :
    getVendorById (updateVendorColumns db r.id n c) r.id =
      .ok (hydrateVendor (updateVendorColumns db r.id n c)
        { r with name := n.getD r.name, city := c.getD r.city }) := by
  unfold getVendorById
  have hfm : (updateVendorColumns db r.id n c).vendors.filter
      (fun v => v.id == r.id) =
      [{ r with name := n.getD r.name, city := c.getD r.city }] := by
    simp only [updateVendorColumns]
    rw [filter_updated_rows db.vendors r.id n c,
      filter_vendorId_singleton db.vendors r hvd hr]
    rfl
  rw [hfm]

/-- C3: for every well-formed store and existing vendor id, calling
`updateVendor` with an input whose `categoryIds` field is omitted
(`none`) leaves the junction rows — and hence the derived `categories`
of the vendor — unchanged, while applying the supplied name/city column
updates to the returned vendor. -/
theorem updateVendor_frame (db : DB) (r : VendorRow) (id : String)
    (input : VendorUpdateInput)
    (hwf : db.wf = true) (hr : r ∈ db.vendors) (hid : r.id = id)
    (hcat : input.categoryIds = none) :
    ∃ v db2, updateVendor db id input = (.ok v, db2) ∧
      db2.vendor_categories = db.vendor_categories ∧
      db2.categories = db.categories ∧
      v.name = input.name.getD r.name ∧
      v.city = input.city.getD r.city ∧
      v.categories = (hydrateVendor db r).categories := by
  subst hid
  obtain ⟨hvd, -, -, -, -, -, -⟩ := wf_parts db hwf
  obtain ⟨n, c, cids⟩ := input
  simp only at hcat
  subst hcat
  by_cases hcol : (n.isSome || c.isSome) = true
  · have hmain : updateVendor db r.id
        { name := n, city := c, categoryIds := none } =
        (getVendorById (updateVendorColumns db r.id n c) r.id,
          updateVendorColumns db r.id n c) := by
      simp [updateVendor, hcol]
    rw [hmain, getVendorById_updateVendorColumns db r n c hvd hr]
    refine ⟨_, _, rfl, ?_, ?_, rfl, rfl, ?_⟩
    · simp [updateVendorColumns]
    · simp [updateVendorColumns]
    · simp [hydrateVendor, updateVendorColumns]
  · have hn : n = none := by cases n <;> simp_all
    have hc2 : c = none := by cases c <;> simp_all
    subst hn
    subst hc2
    have hmain : updateVendor db r.id
        { name := none, city := none, categoryIds := none } =
        (getVendorById db r.id, db) := by
      simp [updateVendor]
    rw [hmain, getVendorById_eq_ok db r hvd hr]
    exact ⟨_, _, rfl, rfl, rfl, rfl, rfl, rfl⟩

/-- C3 witness: updating only the name of the concrete vendor v1 of `dbA`
leaves its junction rows and derived categories unchanged. -/
theorem updateVendor_frame_witness :
    dbA.wf = true ∧
    ∃ v db2, updateVendor dbA "v1"
        { name := some "X", city := none, categoryIds := none } =
      (.ok v, db2) ∧
      db2.vendor_categories = dbA.vendor_categories ∧
      db2.categories = dbA.categories ∧
      v.name = "X" ∧ v.city = "Paris" ∧
      v.categories = (hydrateVendor dbA
        { id := "v1", name := "Ritz", city := "Paris",
          created_at := 2 }).categories :=
  ⟨by decide, updateVendor_frame dbA
    { id := "v1", name := "Ritz", city := "Paris", created_at := 2 }
    "v1" { name := some "X", city := none, categoryIds := none }
    (by decide) (by decide) rfl rfl⟩

/-- C4 (amended): at the repository level, for every well-formed store
and existing vendor id, `updateVendor(id, {categoryIds: []})` succeeds and
results in an empty `categories` set: every junction row of the vendor is
deleted and none inserted.  The clearing is not reachable through the
public server action `updateVendorAction`, whose schema rejects an empty
`categoryIds` list (see the counterexample). -/
theorem updateVendor_empty_clears (db : DB) (r : VendorRow) (id : String)
    (hwf : db.wf = true) (hr : r ∈ db.vendors) (hid : r.id = id) :
    ∃ v db2, updateVendor db id
        { name := none, city := none, categoryIds := some [] } =
      (.ok v, db2) ∧
      v.categories = [] ∧
      db2.vendor_categories.filter (fun j => j.vendor_id == id) = [] := by
  subst hid
  obtain ⟨hvd, -, -, -, -, -, -⟩ := wf_parts db hwf
  have hvex : vendorIdExists db r.id = true :=
    (vendorIdExists_iff db r.id).mpr ⟨r, hr, rfl⟩
  have hmain := updateVendor_eq_main db r.id [] hvex (by decide) (by simp)
  have hdR : distinctList
      ((replacedState db r.id []).vendors.map VendorRow.id) = true := by
    simpa [replacedState] using hvd
  have hmem : r ∈ (replacedState db r.id []).vendors := by
    simpa [replacedState] using hr
  have hgot := getVendorById_eq_ok (replacedState db r.id []) r hdR hmem
  have hfil : (replacedState db r.id []).vendor_categories.filter
      (fun j => j.vendor_id == r.id) = [] := by
    simp only [replacedState, List.map_nil, List.append_nil]
    rw [List.filter_eq_nil_iff]
    intro j hj hb
    have hne := List.of_mem_filter hj
    simp at hne
    exact hne (beq_iff_eq.mp hb)
  refine ⟨hydrateVendor (replacedState db r.id []) r,
    replacedState db r.id [], by rw [hmain, hgot], ?_, hfil⟩
  show ((replacedState db r.id []).vendor_categories.filter
    (fun j => j.vendor_id == r.id)).filterMap _ = []
  rw [hfil]
  rfl

/-- C4 witness: clearing the categories of the concrete vendor v1 of
`dbA` through the repository-level update. -/
theorem updateVendor_empty_clears_witness :
    dbA.wf = true ∧
    ∃ v db2, updateVendor dbA "v1"
        { name := none, city := none, categoryIds := some [] } =
      (.ok v, db2) ∧
      v.categories = [] ∧
      db2.vendor_categories.filter (fun j => j.vendor_id == "v1") = [] :=
  ⟨by decide, updateVendor_empty_clears dbA
    { id := "v1", name := "Ritz", city := "Paris", created_at := 2 }
    "v1" (by decide) (by decide) rfl⟩

/-- C4 counterexample: the public server action `updateVendorAction`
rejects an empty `categoryIds` list with a validation error (the shared
zod schema requires at least one category), leaving the vendor's
associations untouched: the clearing is not available through the public
update operation. -/
theorem updateVendor_empty_clears_counterexample :
    (updateVendorAction dbA "v1" "Ritz" "Paris" []).1 =
      .err "Select at least one category" .VALIDATION_ERROR ∧
    ((updateVendorAction dbA "v1" "Ritz" "Paris" []).2).vendor_categories =
      [{ vendor_id := "v1", category_id := "c2" }] := by
  decide

/-- C5: for every category-filter value that is truthy (non-empty) and
associated with no vendor, `getVendors` returns the empty sequence — not
an error — after a single store round-trip: the junction lookup comes back
empty and the main vendors query is never issued. -/
theorem getVendors_category_short_circuit (db : DB) (cid : String)
    (hne : cid ≠ "")
    (hunused : ∀ j ∈ db.vendor_categories, j.category_id ≠ cid) :
    getVendors db (some { city := none, categoryId := some cid }) =
      ([], 1) := by
  have hp : presentFilter (some cid) = some cid := by
    simp [presentFilter, hne]
  have hfil : db.vendor_categories.filter
      (fun j => j.category_id == cid) = [] := by
    rw [List.filter_eq_nil_iff]
    intro j hj hb
    exact hunused j hj (beq_iff_eq.mp hb)
  simp [getVendors, hp, hfil]

/-- C5 witness: in the concrete store `dbA` no junction row carries
category c1, and listing with that filter returns the empty list after
one query. -/
theorem getVendors_category_short_circuit_witness :
    "c1" ≠ "" ∧
    (∀ j ∈ dbA.vendor_categories, j.category_id ≠ "c1") ∧
    getVendors dbA (some { city := none, categoryId := some "c1" }) =
      ([], 1) :=
  ⟨by decide, by decide,
    getVendors_category_short_circuit dbA "c1" (by decide) (by decide)⟩

theorem any_isEmpty_charSuffixes (s : List Char) :
    (charSuffixes s).any (fun cs => cs.isEmpty) = true := by
  induction s with
  | nil => rfl
  | cons c t ih => simp [charSuffixes, ih]

theorem likeMatch_pct (ps cs : List Char) :
    likeMatch ('%' :: ps) cs =
      (charSuffixes cs).any (fun cs2 => likeMatch ps cs2) := by
  conv_lhs => rw [likeMatch.eq_def]
  simp

theorem likeMatch_lit_nil (a : Char) (ps : List Char)
    (h1 : a ≠ '%') (h2 : a ≠ '_') (h3 : a ≠ '\\') :
    likeMatch (a :: ps) [] = false := by
  conv_lhs => rw [likeMatch.eq_def]
  simp [h1, h2, h3]

theorem likeMatch_lit_cons (a : Char) (ps : List Char) (ch : Char)
    (cs : List Char) (h1 : a ≠ '%') (h2 : a ≠ '_') (h3 : a ≠ '\\') :
    likeMatch (a :: ps) (ch :: cs) = ((a == ch) && likeMatch ps cs) := by
  conv_lhs => rw [likeMatch.eq_def]
  simp [h1, h2, h3]

theorem likeMatch_lit_wild (frag : List Char)
    (hmeta : ∀ ch ∈ frag, ch ≠ '%' ∧ ch ≠ '_' ∧ ch ≠ '\\') (s : List Char) :
    likeMatch (frag ++ ['%']) s = isPrefixOfChars frag s := by
  induction frag generalizing s with
  | nil =>
    rw [List.nil_append, likeMatch_pct]
    have h1 : (charSuffixes s).any (fun cs2 => likeMatch [] cs2) =
        (charSuffixes s).any (fun cs2 => cs2.isEmpty) := rfl
    rw [h1, any_isEmpty_charSuffixes]
    rfl
  | cons a frag ih =>
    obtain ⟨h1, h2, h3⟩ := hmeta a (by simp)
    have ih2 := ih (fun ch hch => hmeta ch (by simp [hch]))
    rw [List.cons_append]
    cases s with
    | nil => rw [likeMatch_lit_nil a _ h1 h2 h3]; rfl
    | cons ch cs2 =>
      rw [likeMatch_lit_cons a _ ch cs2 h1 h2 h3, ih2 cs2]
      rfl

theorem any_isPrefixOf_charSuffixes (frag s : List Char) :
    (charSuffixes s).any (fun r => isPrefixOfChars frag r) =
      containsSub s frag := by
  induction s with
  | nil => simp [charSuffixes, containsSub]
  | cons c t ih => simp [charSuffixes, containsSub, ih]

theorem likeMatch_wrap (frag : List Char)
    (hmeta : ∀ ch ∈ frag, ch ≠ '%' ∧ ch ≠ '_' ∧ ch ≠ '\\') (s : List Char) :
    likeMatch ('%' :: (frag ++ ['%'])) s = containsSub s frag := by
  rw [likeMatch_pct]
  have hsimp : (charSuffixes s).any
      (fun cs2 => likeMatch (frag ++ ['%']) cs2) =
      (charSuffixes s).any (fun r => isPrefixOfChars frag r) := by
    simp only [likeMatch_lit_wild frag hmeta]
  rw [hsimp, any_isPrefixOf_charSuffixes]

theorem lowerChar_eq_or (ch : Char) :
    lowerChar ch = ch ∨ lowerChar ch ∈
      ['a', 'b', 'c', 'd', 'e', 'f', 'g', 'h', 'i', 'j', 'k', 'l', 'm',
       'n', 'o', 'p', 'q', 'r', 's', 't', 'u', 'v', 'w', 'x', 'y', 'z'] := by
  unfold lowerChar
  split
  case _ => right; decide
  case _ => right; decide
  case _ => right; decide
  case _ => right; decide
  case _ => right; decide
  case _ => right; decide
  case _ => right; decide
  case _ => right; decide
  case _ => right; decide
  case _ => right; decide
  case _ => right; decide
  case _ => right; decide
  case _ => right; decide
  case _ => right; decide
  case _ => right; decide
  case _ => right; decide
  case _ => right; decide
  case _ => right; decide
  case _ => right; decide
  case _ => right; decide
  case _ => right; decide
  case _ => right; decide
  case _ => right; decide
  case _ => right; decide
  case _ => right; decide
  case _ => right; decide
  case _ => left; rfl

theorem lowerChar_no_meta (ch : Char)
    (h : ch ≠ '%' ∧ ch ≠ '_' ∧ ch ≠ '\\') :
    lowerChar ch ≠ '%' ∧ lowerChar ch ≠ '_' ∧ lowerChar ch ≠ '\\' := by
  rcases lowerChar_eq_or ch with he | hm
  · rw [he]
    exact h
  · have hlz : ∀ x ∈ ['a', 'b', 'c', 'd', 'e', 'f', 'g', 'h', 'i', 'j',
        'k', 'l', 'm', 'n', 'o', 'p', 'q', 'r', 's', 't', 'u', 'v', 'w',
        'x', 'y', 'z'], x ≠ '%' ∧ x ≠ '_' ∧ x ≠ '\\' := by decide
    exact hlz _ hm

theorem lowerChar_pct : lowerChar '%' = '%' := by decide

theorem ilikeTest_eq_substring (city pat : String)
    (hmeta : noMeta pat = true) :
    ilikeTest city pat = citySubstringMatch city pat := by
  unfold ilikeTest citySubstringMatch
  have hlow : lowerChars (ilikePattern pat) =
      '%' :: (lowerChars pat.data ++ ['%']) := by
    simp [lowerChars, ilikePattern, lowerChar_pct]
  rw [hlow]
  apply likeMatch_wrap
  intro ch hch
  obtain ⟨ch0, hch0, he⟩ := List.mem_map.mp hch
  have hm : ∀ x ∈ pat.data,
      (!(x == '%') && !(x == '_') && !(x == '\\')) = true := by
    simpa [noMeta, List.all_eq_true] using hmeta
  have h0 := hm ch0 hch0
  simp only [Bool.and_eq_true, Bool.not_eq_true', beq_eq_false_iff_ne] at h0
  rw [← he]
  exact lowerChar_no_meta ch0 ⟨h0.1.1, h0.1.2, h0.2⟩

theorem mem_insertRowByName (v x : VendorRow) (l : List VendorRow) :
    x ∈ insertRowByName v l ↔ x = v ∨ x ∈ l := by
  induction l with
  | nil => simp [insertRowByName]
  | cons w ws ih =>
    unfold insertRowByName
    by_cases h : nameLe v.name w.name = true
    · simp [h]
    · simp only [Bool.not_eq_true] at h
      simp only [h, Bool.false_eq_true, if_false, List.mem_cons, ih]
      tauto

theorem mem_sortRowsByName (x : VendorRow) (l : List VendorRow) :
    x ∈ sortRowsByName l ↔ x ∈ l := by
  induction l with
  | nil => simp [sortRowsByName]
  | cons v vs ih => simp [sortRowsByName, mem_insertRowByName, ih]

/-- C6 (amended): for every non-empty city filter string free of SQL
`LIKE` metacharacters (`%`, `_`, `\`), `listVendors({city})` returns
exactly the vendors whose `city` contains the filter as a case-insensitive
substring (contains, not prefix or exact); and when both the city filter
and a non-empty category filter are supplied, the result is exactly the
vendors satisfying both conditions (logical AND).  The metacharacter
restriction is forced by the counterexample: the filter is interpolated
into an `ILIKE` pattern, where `%` and `_` act as wildcards rather than
literal characters. -/
theorem getVendors_city_filter_and_conjunction (db : DB) (c k : String)
    (hc : c ≠ "") (hmeta : noMeta c = true) (hk : k ≠ "") :
    (∀ v : Vendor,
      v ∈ (getVendors db (some { city := some c, categoryId := none })).1 ↔
      ∃ r ∈ db.vendors, citySubstringMatch r.city c = true ∧
        v = hydrateVendor db r) ∧
    (∀ v : Vendor,
      v ∈ (getVendors db
        (some { city := some c, categoryId := some k })).1 ↔
      ∃ r ∈ db.vendors, citySubstringMatch r.city c = true ∧
        (∃ j ∈ db.vendor_categories, j.vendor_id = r.id ∧
          j.category_id = k) ∧
        v = hydrateVendor db r) := by
  have hpc : presentFilter (some c) = some c := by
    simp [presentFilter, hc]
  have hpk : presentFilter (some k) = some k := by
    simp [presentFilter, hk]
  constructor
  · intro v
    have hget : getVendors db
        (some { city := some c, categoryId := none }) =
        (vendorMainQuery db none (some c), 1) := by
      simp [getVendors, presentFilter, hc]
    rw [hget]
    unfold vendorMainQuery
    simp only [List.mem_map]
    constructor
    · rintro ⟨r, hr, he⟩
      rw [mem_sortRowsByName] at hr
      have hr2 := List.mem_filter.mp hr
      have hpred : ilikeTest r.city c = true := by
        simpa using hr2.2
      rw [ilikeTest_eq_substring r.city c hmeta] at hpred
      exact ⟨r, hr2.1, hpred, he.symm⟩
    · rintro ⟨r, hr, hsub, he⟩
      refine ⟨r, ?_, he.symm⟩
      rw [mem_sortRowsByName]
      refine List.mem_filter.mpr ⟨hr, ?_⟩
      simpa using (ilikeTest_eq_substring r.city c hmeta).symm ▸ hsub
  · intro v
    by_cases hvids : (db.vendor_categories.filter
        (fun j => j.category_id == k)).map JunctionRow.vendor_id = []
    · have hfil0 : db.vendor_categories.filter
          (fun j => j.category_id == k) = [] := by
        rcases List.map_eq_nil_iff.mp hvids with h
        exact h
      have hall : ∀ j ∈ db.vendor_categories, ¬ j.category_id = k := by
        intro j hj hjk
        have hjf : j ∈ db.vendor_categories.filter
            (fun j => j.category_id == k) :=
          List.mem_filter.mpr ⟨hj, by simp [hjk]⟩
        rw [hfil0] at hjf
        cases hjf
      have hget : getVendors db
          (some { city := some c, categoryId := some k }) = ([], 1) := by
        simp [getVendors, presentFilter, hc, hk]
        exact hall
      rw [hget]
      simp only [List.not_mem_nil, false_iff]
      rintro ⟨r, hr, hsub, ⟨j, hj, hjv, hjc⟩, he⟩
      have hjf : j ∈ db.vendor_categories.filter
          (fun j => j.category_id == k) :=
        List.mem_filter.mpr ⟨hj, by simp [hjc]⟩
      have : j.vendor_id ∈ (db.vendor_categories.filter
          (fun j => j.category_id == k)).map JunctionRow.vendor_id :=
        List.mem_map_of_mem JunctionRow.vendor_id hjf
      rw [hvids] at this
      cases this
    · have hne : ((db.vendor_categories.filter
          (fun j => j.category_id == k)).map
            JunctionRow.vendor_id).isEmpty = false := by
        rw [List.isEmpty_eq_false_iff_exists_mem]
        rcases List.exists_mem_of_ne_nil _ hvids with ⟨x, hx⟩
        exact ⟨x, hx⟩
      have hcond : ¬ (∀ j ∈ db.vendor_categories, ¬ j.category_id = k) := by
        intro hall
        apply hvids
        rw [List.map_eq_nil_iff, List.filter_eq_nil_iff]
        intro j hj hb
        exact hall j hj (beq_iff_eq.mp hb)
      have hget : getVendors db
          (some { city := some c, categoryId := some k }) =
          (vendorMainQuery db
            (some ((db.vendor_categories.filter
              (fun j => j.category_id == k)).map JunctionRow.vendor_id))
            (some c), 2) := by
        simp [getVendors, presentFilter, hc, hk, hcond]
      rw [hget]
      unfold vendorMainQuery
      simp only [List.mem_map]
      constructor
      · rintro ⟨r, hr, he⟩
        rw [mem_sortRowsByName] at hr
        have hr2 := List.mem_filter.mp hr
        have hpred : (((db.vendor_categories.filter
            (fun j => j.category_id == k)).map
              JunctionRow.vendor_id).contains r.id &&
            ilikeTest r.city c) = true := by
          simpa using hr2.2
        rw [Bool.and_eq_true] at hpred
        have hsub : citySubstringMatch r.city c = true := by
          rw [← ilikeTest_eq_substring r.city c hmeta]
          exact hpred.2
        have hcont := (contains_true_iff _ _).mp hpred.1
        obtain ⟨j, hjf, hjv⟩ := List.mem_map.mp hcont
        have hjp := List.mem_filter.mp hjf
        exact ⟨r, hr2.1, hsub,
          ⟨j, hjp.1, hjv, beq_iff_eq.mp hjp.2⟩, he.symm⟩
      · rintro ⟨r, hr, hsub, ⟨j, hj, hjv, hjc⟩, he⟩
        refine ⟨r, ?_, he.symm⟩
        rw [mem_sortRowsByName]
        refine List.mem_filter.mpr ⟨hr, ?_⟩
        have hcont : ((db.vendor_categories.filter
            (fun j => j.category_id == k)).map
              JunctionRow.vendor_id).contains r.id = true := by
          rw [contains_true_iff]
          refine List.mem_map.mpr ⟨j, ?_, hjv⟩
          exact List.mem_filter.mpr ⟨hj, by simp [hjc]⟩
        have hil : ilikeTest r.city c = true := by
          rw [ilikeTest_eq_substring r.city c hmeta]
          exact hsub
        simp [hcont, hil]
        exact ⟨j, ⟨hj, hjc⟩, hjv⟩

/-- C6 witness: in the concrete store `dbA`, both filter shapes applied
with the city filter "par" and the category filter c2. -/
theorem getVendors_city_filter_and_conjunction_witness :
    "par" ≠ "" ∧ noMeta "par" = true ∧ "c2" ≠ "" ∧
    ((∀ v : Vendor,
      v ∈ (getVendors dbA
        (some { city := some "par", categoryId := none })).1 ↔
      ∃ r ∈ dbA.vendors, citySubstringMatch r.city "par" = true ∧
        v = hydrateVendor dbA r) ∧
    (∀ v : Vendor,
      v ∈ (getVendors dbA
        (some { city := some "par", categoryId := some "c2" })).1 ↔
      ∃ r ∈ dbA.vendors, citySubstringMatch r.city "par" = true ∧
        (∃ j ∈ dbA.vendor_categories, j.vendor_id = r.id ∧
          j.category_id = "c2") ∧
        v = hydrateVendor dbA r)) :=
  ⟨by decide, by decide, by decide,
    getVendors_city_filter_and_conjunction dbA "par" "c2"
      (by decide) (by decide) (by decide)⟩

/-- C6 counterexample: the city filter "P%s" does not occur in "Paris" as
a substring, yet `listVendors({city: "P%s"})` on the concrete store `dbA`
returns the Paris vendor, because the filter string is interpolated into
an `ILIKE` pattern where `%` matches any sequence: the city filter is not
a pure substring match for every filter string. -/
theorem getVendors_city_filter_and_conjunction_counterexample :
    ((getVendors dbA
      (some { city := some "P%s", categoryId := none })).1).map
        Vendor.name = ["Ritz"] ∧
    citySubstringMatch "Paris" "P%s" = false := by
  decide

/-- C7 (amended): for every name for which a category already exists with
that exact name, `createCategory` fails with the store's unique-violation
error; but the failure surfaced to the caller through
`createCategoryAction` is the generic `DATABASE_ERROR` kind (message
"Database operation failed"), not the `CONFLICT` kind — the action's catch
block maps every thrown store error to `DATABASE_ERROR`. -/
theorem createCategory_conflict (db : DB) (name : String)
    (hdup : ∃ c ∈ db.categories, c.name = name)
    (hschema : categorySchemaCheck name = none) :
    createCategory db name = (.error .uniqueViolation, db) ∧
    createCategoryAction db name =
      (.err (getErrorMessage .DATABASE_ERROR) .DATABASE_ERROR, db) := by
  have hany : db.categories.any (fun c => c.name == name) = true := by
    obtain ⟨c, hc, he⟩ := hdup
    exact List.any_eq_true.mpr ⟨c, hc, by simp [he]⟩
  have hcc : createCategory db name = (.error .uniqueViolation, db) := by
    simp [createCategory, insertCategoryRow, hany]
  refine ⟨hcc, ?_⟩
  simp [createCategoryAction, hschema, hcc, handleError]

/-- C7 witness: creating "Tour Operator" in the concrete store `dbA`,
which already holds a category with that exact name. -/
theorem createCategory_conflict_witness :
    (∃ c ∈ dbA.categories, c.name = "Tour Operator") ∧
    categorySchemaCheck "Tour Operator" = none ∧
    (createCategory dbA "Tour Operator" =
      (.error .uniqueViolation, dbA) ∧
    createCategoryAction dbA "Tour Operator" =
      (.err (getErrorMessage .DATABASE_ERROR) .DATABASE_ERROR, dbA)) :=
  ⟨by decide, by decide,
    createCategory_conflict dbA "Tour Operator" (by decide) (by decide)⟩

/-- C7 counterexample: after a category named "Tour Operator" exists,
`createCategoryAction` with that exact name surfaces the generic
`DATABASE_ERROR` kind, which is distinct from `CONFLICT`: the failure is
not surfaced to the caller as the Conflict kind. -/
theorem createCategory_conflict_counterexample :
    (createCategoryAction dbA "Tour Operator").1 =
      .err "Database operation failed" .DATABASE_ERROR ∧
    ErrorCode.DATABASE_ERROR ≠ ErrorCode.CONFLICT := by
  decide

/-- C8: if the vendor-row insert succeeds (it always does) and the
subsequent junction-row bulk insert fails, `createVendor` surfaces the
store error to the caller instead of reporting success, while the vendor
row remains in the store (no automatic rollback) and none of the intended
junction rows exist (the single failed insert statement is atomic). -/
theorem createVendor_no_rollback (db : DB) (input : VendorCreateInput)
    (e : DbError)
    (hne : input.categoryIds ≠ [])
    (hfail : insertJunctionRows
      (insertVendorRow db input.name input.city).2
      (input.categoryIds.map (fun cid =>
        { vendor_id := ((insertVendorRow db input.name input.city).1).id,
          category_id := cid })) = .error e) :
    createVendor db input =
      (.error e, (insertVendorRow db input.name input.city).2) ∧
    (insertVendorRow db input.name input.city).1 ∈
      ((insertVendorRow db input.name input.city).2).vendors ∧
    ((insertVendorRow db input.name input.city).2).vendor_categories =
      db.vendor_categories := by
  have hlen : input.categoryIds.length > 0 := List.length_pos.mpr hne
  refine ⟨?_, by simp [insertVendorRow], by simp [insertVendorRow]⟩
  simp only [createVendor, hlen, if_pos]
  rw [hfail]

/-- C8 witness: creating a vendor in `dbA` with the nonexistent category
id zzz makes the junction insert fail its foreign key after the vendor row
was inserted. -/
theorem createVendor_no_rollback_witness :
    ["zzz"] ≠ ([] : List String) ∧
    insertJunctionRows
      (insertVendorRow dbA "Tokyo Adventures" "Tokyo").2
      ((["zzz"] : List String).map (fun cid =>
        { vendor_id :=
            ((insertVendorRow dbA "Tokyo Adventures" "Tokyo").1).id,
          category_id := cid })) = .error .foreignKeyViolation ∧
    (createVendor dbA
      { name := "Tokyo Adventures", city := "Tokyo",
        categoryIds := ["zzz"] } =
      (.error .foreignKeyViolation,
        (insertVendorRow dbA "Tokyo Adventures" "Tokyo").2) ∧
    (insertVendorRow dbA "Tokyo Adventures" "Tokyo").1 ∈
      ((insertVendorRow dbA "Tokyo Adventures" "Tokyo").2).vendors ∧
    ((insertVendorRow dbA "Tokyo Adventures" "Tokyo").2).vendor_categories =
      dbA.vendor_categories) :=
  ⟨by decide, by decide,
    createVendor_no_rollback dbA
      { name := "Tokyo Adventures", city := "Tokyo",
        categoryIds := ["zzz"] }
      .foreignKeyViolation (by decide) (by decide)⟩

theorem charsLe_total (a b : List Char) :
    charsLe a b = true ∨ charsLe b a = true := by
  induction a generalizing b with
  | nil => left; rfl
  | cons x xs ih =>
    cases b with
    | nil => right; rfl
    | cons y ys =>
      by_cases h1 : x.toNat < y.toNat
      · left; simp [charsLe, h1]
      · by_cases h2 : y.toNat < x.toNat
        · right; simp [charsLe, h2]
        · rcases ih ys with h | h
          · left; simp [charsLe, h1, h2, h]
          · right
            have h3 : ¬ y.toNat < x.toNat := h2
            have h4 : ¬ x.toNat < y.toNat := h1
            simp [charsLe, h3, h4, h]

theorem charsLe_trans (a b c : List Char)
    (hab : charsLe a b = true) (hbc : charsLe b c = true) :
    charsLe a c = true := by
  induction a generalizing b c with
  | nil => rfl
  | cons x xs ih =>
    cases b with
    | nil => simp [charsLe] at hab
    | cons y ys =>
      cases c with
      | nil => simp [charsLe] at hbc
      | cons z zs =>
        by_cases hxy : x.toNat < y.toNat
        · by_cases hyz : y.toNat < z.toNat
          · have hxz : x.toNat < z.toNat := by omega
            simp [charsLe, hxz]
          · by_cases hzy : z.toNat < y.toNat
            · simp [charsLe, hyz, hzy] at hbc
            · have hxz : x.toNat < z.toNat := by omega
              simp [charsLe, hxz]
        · by_cases hyx : y.toNat < x.toNat
          · simp [charsLe, hxy, hyx] at hab
          · have hab2 : charsLe xs ys = true := by
              simpa [charsLe, hxy, hyx] using hab
            by_cases hyz : y.toNat < z.toNat
            · have hxz : x.toNat < z.toNat := by omega
              simp [charsLe, hxz]
            · by_cases hzy : z.toNat < y.toNat
              · simp [charsLe, hyz, hzy] at hbc
              · have hbc2 : charsLe ys zs = true := by
                  simpa [charsLe, hyz, hzy] using hbc
                have hxz1 : ¬ x.toNat < z.toNat := by omega
                have hxz2 : ¬ z.toNat < x.toNat := by omega
                simp [charsLe, hxz1, hxz2]
                exact ih ys zs hab2 hbc2

theorem nameLe_total (s t : String) :
    nameLe s t = true ∨ nameLe t s = true :=
  charsLe_total s.data t.data

theorem nameLe_trans (s t u : String)
    (h1 : nameLe s t = true) (h2 : nameLe t u = true) :
    nameLe s u = true :=
  charsLe_trans s.data t.data u.data h1 h2

theorem pairwise_insertRowByName (v : VendorRow) (l : List VendorRow)
    (hp : l.Pairwise (fun a b => nameLe a.name b.name = true)) :
    (insertRowByName v l).Pairwise
      (fun a b => nameLe a.name b.name = true) := by
  induction l with
  | nil => simp [insertRowByName]
  | cons w ws ih =>
    rw [List.pairwise_cons] at hp
    unfold insertRowByName
    by_cases h : nameLe v.name w.name = true
    · rw [if_pos h, List.pairwise_cons]
      refine ⟨?_, List.pairwise_cons.mpr hp⟩
      intro x hx
      rcases List.mem_cons.mp hx with hx1 | hx1
      · rw [hx1]; exact h
      · exact nameLe_trans _ _ _ h (hp.1 x hx1)
    · rw [if_neg (by simpa using h), List.pairwise_cons]
      refine ⟨?_, ih hp.2⟩
      intro x hx
      rcases (mem_insertRowByName v x ws).mp hx with hx1 | hx1
      · rw [hx1]
        rcases nameLe_total v.name w.name with ht | ht
        · exact absurd ht h
        · exact ht
      · exact hp.1 x hx1

theorem pairwise_sortRowsByName (l : List VendorRow) :
    (sortRowsByName l).Pairwise
      (fun a b => nameLe a.name b.name = true) := by
  induction l with
  | nil => simp [sortRowsByName]
  | cons v vs ih => exact pairwise_insertRowByName v _ ih

theorem pairwise_vendorMainQuery (db : DB) (idSet : Option (List String))
    (cityF : Option String) :
    (vendorMainQuery db idSet cityF).Pairwise
      (fun a b => nameLe a.name b.name = true) := by
  unfold vendorMainQuery
  rw [List.pairwise_map]
  exact pairwise_sortRowsByName _

/-- C9 (amended): the vendors sequence returned by `listVendors` is
ordered by vendor name ascending (the store's `ORDER BY name`), but each
vendor's derived `categories` sequence is not ordered by name: it follows
the junction rows' stored order, since the source applies no ordering to
the nested projection (see the counterexample). -/
theorem getVendors_sorted_by_name (db : DB)
    (filters : Option VendorFilters) :
    ((getVendors db filters).1).Pairwise
      (fun a b => nameLe a.name b.name = true) := by
  unfold getVendors
  cases presentFilter (filters.bind VendorFilters.categoryId) with
  | none => exact pairwise_vendorMainQuery db none _
  | some cid =>
    by_cases hvids : ((db.vendor_categories.filter
        (fun j => j.category_id == cid)).map
          JunctionRow.vendor_id).isEmpty = true
    · simp only [hvids, if_pos]
      exact List.Pairwise.nil
    · simp only [Bool.not_eq_true] at hvids
      simp only [hvids, Bool.false_eq_true, if_false]
      exact pairwise_vendorMainQuery db _ _

/-- C9 counterexample: in the concrete store `dbB` the vendor's junction
rows point at the categories named "Zeta" then "Alpha"; `getVendorById`
returns the derived categories in exactly that junction order, which is
not ascending by name — the derived categories sequence is not the
ordered-by-name set the specification describes. -/
theorem getVendors_sorted_by_name_counterexample :
    ((getVendorById dbB "v1").map
      (fun v => v.categories.map CategoryRow.name)) =
      .ok ["Zeta", "Alpha"] ∧
    nameLe "Zeta" "Alpha" = false := by
  decide

theorem filter_self_idem {α : Type} (p : α → Bool) (l : List α) :
    (l.filter p).filter p = l.filter p :=
  List.filter_eq_self.mpr (fun a ha => List.of_mem_filter ha)

/-- C10: deletes are idempotent no-ops on missing rows: for every id,
`deleteCategory` and `deleteVendor` complete successfully (neither checks
row existence, so there is no NotFound outcome); when no matching row or
junction row exists the store is left unchanged; and deleting twice in a
row succeeds both times, the second delete leaving the store exactly as
the first left it. -/
theorem delete_idempotent_noop (db : DB) (id : String) :
    (deleteCategory db id).1 = .ok () ∧
    (deleteVendor db id).1 = .ok () ∧
    ((∀ c ∈ db.categories, c.id ≠ id) →
      (∀ j ∈ db.vendor_categories, j.category_id ≠ id) →
      (deleteCategory db id).2 = db) ∧
    ((∀ v ∈ db.vendors, v.id ≠ id) →
      (∀ j ∈ db.vendor_categories, j.vendor_id ≠ id) →
      (deleteVendor db id).2 = db) ∧
    (deleteCategory (deleteCategory db id).2 id).2 =
      (deleteCategory db id).2 ∧
    (deleteVendor (deleteVendor db id).2 id).2 =
      (deleteVendor db id).2 := by
  refine ⟨rfl, rfl, ?_, ?_, ?_, ?_⟩
  · intro h1 h2
    simp only [deleteCategory, deleteCategoryRow]
    have hc : db.categories.filter (fun c => !(c.id == id)) =
        db.categories := by
      rw [List.filter_eq_self]
      intro a ha
      simpa using h1 a ha
    have hj : db.vendor_categories.filter
        (fun j => !(j.category_id == id)) = db.vendor_categories := by
      rw [List.filter_eq_self]
      intro a ha
      simpa using h2 a ha
    rw [hc, hj]
  · intro h1 h2
    simp only [deleteVendor, deleteVendorRow, deleteJunctionRowsOfVendor]
    have hv : db.vendors.filter (fun v => !(v.id == id)) = db.vendors := by
      rw [List.filter_eq_self]
      intro a ha
      simpa using h1 a ha
    have hj : db.vendor_categories.filter
        (fun j => !(j.vendor_id == id)) = db.vendor_categories := by
      rw [List.filter_eq_self]
      intro a ha
      simpa using h2 a ha
    simp only [hj]
    rw [hv]
  · simp [deleteCategory, deleteCategoryRow, filter_self_idem]
  · simp [deleteVendor, deleteVendorRow, deleteJunctionRowsOfVendor,
      filter_self_idem]

/-- C10 witness: deleting the nonexistent id zzz from the concrete store
`dbA` succeeds and leaves the store unchanged, for both entity kinds. -/
theorem delete_idempotent_noop_witness :
    (deleteCategory dbA "zzz").2 = dbA ∧
    (deleteVendor dbA "zzz").2 = dbA :=
  ⟨(delete_idempotent_noop dbA "zzz").2.2.1 (by decide) (by decide),
   (delete_idempotent_noop dbA "zzz").2.2.2.1 (by decide) (by decide)⟩

end Travel
